import Mathlib

/-!
# Verification of the sequelize-query-parser translator

Shallow embedding of `src/sequelizeQueryParser.js` (the current version of the
module: the one whose `parseQueryParam` splits on `/:(.+)/` and whose `parse`
initialises the descriptor with `where`, `offset` and `limit`).

Modelling conventions:
* JavaScript objects are association lists in insertion order; property
  assignment (`obj[k] = v`) updates the first entry with that key in place or
  appends (`objSet`).
* Sequelize operator symbols (`Op.gt`, ...) are the opaque enumeration `OpSym`;
  after the rewrite pass a key is either a plain string or such a symbol
  (`QKey`).  An unknown-operator lookup (`operators[name]` = `undefined`) used
  as a property key becomes the string key `"undefined"`, as in JavaScript.
* The `db` collaborator is modelled by its only observable capability here:
  which string names resolve to a non-null property (`db : String → Bool`);
  a resolved model handle `db[name]` is represented as `Json.entity name`.
* Machine numbers: `parseInt` results are `Option Int`, `none` playing the
  role of `NaN`; `Math.max` / `Math.min` / `*` propagate `NaN` accordingly.
  JSON numeric literals are modelled as integers (every numeral exercised by
  the specification's claims is an integer).
* The rewrite pass mutates the freshly parsed tree in place in JavaScript;
  the pure transform below renames each key in place in the association list
  (renamed symbol keys can never collide with remaining string keys, and the
  distinct operator names map to distinct symbols, so this is lookup-faithful).
* Thrown exceptions / rejected promises are `Except.error` carrying the
  message (the source rejects `[{msg: error.message}]`; the wrapper list and
  record are elided, the message string is kept).
-/

/-- The Sequelize operator symbols (`db.Sequelize.Op.*`), opaque tokens. -/
inductive OpSym where
  | gt | gte | lt | lte | ne | eq | not
  | like | notLike | regexp | notRegexp
  | and | or | between | notBetween
  | «in» | notIn
deriving DecidableEq, Repr

/-- A JavaScript property key after the rewrite pass: a plain string or an
operator symbol. -/
inductive QKey where
  | str (s : String)
  | op (o : OpSym)
deriving DecidableEq, Repr

/-- JSON-ish values flowing through the translator.  `entity name` stands for
the resolved model handle `db[name]`. -/
inductive Json where
  | null
  | bool (b : Bool)
  | num (n : Int)
  | str (s : String)
  | arr (elems : List Json)
  | obj (entries : List (QKey × Json))
  | entity (name : String)

/-- The `operators` table of the source (operator name → Sequelize symbol). -/
def operators : String → Option OpSym
  | "gt" => some .gt
  | "gte" => some .gte
  | "lt" => some .lt
  | "lte" => some .lte
  | "ne" => some .ne
  | "eq" => some .eq
  | "not" => some .not
  | "like" => some .like
  | "notLike" => some .notLike
  | "regexp" => some .regexp
  | "notRegexp" => some .notRegexp
  | "and" => some .and
  | "or" => some .or
  | "between" => some .between
  | "notBetween" => some .notBetween
  | "in" => some .«in»
  | "notIn" => some .notIn
  | _ => none

/-- `operators[key]` where the key may already be a symbol (symbol keys are
never themselves operator names). -/
def opOfKey : QKey → Option OpSym
  | .str s => operators s
  | .op _ => none

/-- A query-string parameter value: a single string or a repeated parameter
(array of strings), per the HTTP layer's contract. -/
inductive ParamValue where
  | str (s : String)
  | arr (l : List String)

/-- JavaScript `String(value)`: identity on strings, `Array.prototype.toString`
(comma join) on arrays. -/
def ParamValue.jsToString : ParamValue → String
  | .str s => s
  | .arr l => String.intercalate "," l

/-- JavaScript `value.split(sep)` for a single-character separator, on the
character list. `""` splits to `[""]`, as in JavaScript. -/
def jsSplitChar (sep : Char) : List Char → List (List Char)
  | [] => [[]]
  | c :: rest =>
    if c = sep then [] :: jsSplitChar sep rest
    else
      match jsSplitChar sep rest with
      | [] => [[c]]
      | h :: t => (c :: h) :: t

/-- `s.split(sep)` on strings. -/
def jsSplit (sep : Char) (s : String) : List String :=
  (jsSplitChar sep s.toList).map String.mk

/-- `query.split(/:(.+)/)` finds the first `:` that has at least one character
after it; on a match the split yields the prefix and the (greedy) remainder.
Returns `none` when the regex does not match (no such colon), mirroring the
single-element split result.  (Line terminators inside parameter values, which
`.` would not match, are not exercised by any claim.) -/
def splitColonAux : List Char → Option (List Char × List Char)
  | [] => none
  | c :: rest =>
    if c = ':' then
      match rest with
      | [] => none
      | r :: rs => some ([], r :: rs)
    else
      match splitColonAux rest with
      | some (l, r) => some (c :: l, r)
      | none => none

/-- String-level wrapper for `splitColonAux`. -/
def splitFirstColon (q : String) : Option (String × String) :=
  match splitColonAux q.toList with
  | some (l, r) => some (String.mk l, String.mk r)
  | none => none

/-- The source's `parseQueryParam`: split on the first colon followed by a
non-empty remainder; on a match build `{operators[name]: remainder-or-list}`
(a missing operator yields the JavaScript property key `"undefined"`);
otherwise return the whole string. -/
def parseQueryParam (query : String) : Json :=
  match splitFirstColon query with
  | some (name, rest) =>
    let elementsArray := jsSplit ',' rest
    let key : QKey :=
      match operators name with
      | some op => QKey.op op
      | none => QKey.str "undefined"
    if elementsArray.length > 1 then
      Json.obj [(key, Json.arr (elementsArray.map Json.str))]
    else
      Json.obj [(key, Json.str (elementsArray.headD ""))]
  | none => Json.str query

/-- `splitStringAndBuildArray`: split on `,`, then each element on `.`. -/
def splitStringAndBuildArray (obj : String) : List (List String) :=
  (jsSplit ',' obj).map (fun element => jsSplit '.' element)

/-- `parseFields`: accepts a single string or an array of strings (the
`sort_by` / `group_by` paths). -/
def parseFields : ParamValue → List (List String)
  | .str s => splitStringAndBuildArray s
  | .arr l => l.foldl (fun array obj => array ++ splitStringAndBuildArray obj) []

/-- JavaScript whitespace skipped by `parseInt` (ASCII fragment). -/
def isJsWs (c : Char) : Bool :=
  c = ' ' || c = '\t' || c = '\n' || c = '\r' || c = '\x0b' || c = '\x0c'

/-- Value of a decimal digit list (most significant first). -/
def digitsToNat (l : List Char) : Nat :=
  l.foldl (fun acc c => acc * 10 + (c.toNat - '0'.toNat)) 0

/-- Hexadecimal digit value. -/
def hexDigit? (c : Char) : Option Nat :=
  if '0' ≤ c ∧ c ≤ '9' then some (c.toNat - '0'.toNat)
  else if 'a' ≤ c ∧ c ≤ 'f' then some (c.toNat - 'a'.toNat + 10)
  else if 'A' ≤ c ∧ c ≤ 'F' then some (c.toNat - 'A'.toNat + 10)
  else none

/-- Is the character a hexadecimal digit? -/
def isHexDigit (c : Char) : Bool := (hexDigit? c).isSome

/-- Value of a hexadecimal digit list (most significant first). -/
def hexToNat (l : List Char) : Nat :=
  l.foldl (fun acc c => acc * 16 + ((hexDigit? c).getD 0)) 0

/-- JavaScript `parseInt(s)` (no radix argument): skip whitespace, optional
sign, `0x`/`0X` hexadecimal prefix, longest digit prefix; `none` is `NaN`. -/
def parseIntJs (s : String) : Option Int :=
  let cs := s.toList.dropWhile isJsWs
  let (sign, cs) : Int × List Char :=
    match cs with
    | '-' :: r => (-1, r)
    | '+' :: r => (1, r)
    | _ => (1, cs)
  match cs with
  | '0' :: 'x' :: r =>
    let ds := r.takeWhile isHexDigit
    if ds = [] then none else some (sign * (hexToNat ds : Int))
  | '0' :: 'X' :: r =>
    let ds := r.takeWhile isHexDigit
    if ds = [] then none else some (sign * (hexToNat ds : Int))
  | _ =>
    let ds := cs.takeWhile Char.isDigit
    if ds = [] then none else some (sign * (digitsToNat ds : Int))

/-- `Math.max(a, b)` with a possibly-`NaN` first argument. -/
def mathMax : Option Int → Int → Option Int
  | some a, b => some (max a b)
  | none, _ => none

/-- `Math.min(a, b)` with a possibly-`NaN` first argument. -/
def mathMin : Option Int → Int → Option Int
  | some a, b => some (min a b)
  | none, _ => none

/-- Multiplication propagating `NaN`. -/
def jsMul : Option Int → Option Int → Option Int
  | some a, some b => some (a * b)
  | _, _ => none

/-- `pageSizeLimit` of the source. -/
def pageSizeLimit : Int := 200

/-- The structured query descriptor, with the initial values the source gives
it (`{where: {}, offset: 0, limit: 200}`; the other keys are absent). -/
structure Descriptor where
  attributes : Option (List String) := none
  «where» : List (QKey × Json) := []
  order : Option (List (List String)) := none
  group : Option (List (List String)) := none
  «include» : Option Json := none
  limit : Option Int := some pageSizeLimit
  offset : Option Int := some 0

/-- JavaScript object property assignment `obj[k] = v`: update the (first)
entry with key `k` in place, or append a new entry. -/
def objSet : List (QKey × Json) → QKey → Json → List (QKey × Json)
  | [], k, v => [(k, v)]
  | (k0, v0) :: rest, k, v =>
    if k0 = k then (k0, v) :: rest
    else (k0, v0) :: objSet rest k v

/-- First-match association lookup (JavaScript property read). -/
def lookupQ : List (QKey × Json) → QKey → Option Json
  | [], _ => none
  | (k0, v) :: rest, k => if k0 = k then some v else lookupQ rest k

/-- The `unescape` built-in: decode `%uXXXX` and `%XX` sequences, leaving
unmatched `%` literal.  Fuel-indexed (any fuel at least the list length gives
the full decoding); every recursive call moves to a strict suffix. -/
def jsUnescapeAux : Nat → List Char → List Char
  | 0, _ => []
  | _, [] => []
  | fuel + 1, c :: rest =>
    if c = '%' then
      match rest with
      | 'u' :: a :: b :: c2 :: d :: rest2 =>
        match hexDigit? a, hexDigit? b, hexDigit? c2, hexDigit? d with
        | some x, some y, some z, some w =>
          Char.ofNat (((x * 16 + y) * 16 + z) * 16 + w) :: jsUnescapeAux fuel rest2
        | _, _, _, _ => '%' :: jsUnescapeAux fuel rest
      | a :: b :: rest2 =>
        match hexDigit? a, hexDigit? b with
        | some x, some y => Char.ofNat (x * 16 + y) :: jsUnescapeAux fuel rest2
        | _, _ => '%' :: jsUnescapeAux fuel rest
      | _ => '%' :: jsUnescapeAux fuel rest
    else c :: jsUnescapeAux fuel rest

/-- String-level `unescape`. -/
def jsUnescape (s : String) : String := String.mk (jsUnescapeAux s.length s.toList)

/-- Opening brace character. -/
def braceOpen : Char := Char.ofNat 123

/-- Closing brace character. -/
def braceClose : Char := Char.ofNat 125

/-- JSON whitespace. -/
def isJsonWs (c : Char) : Bool := c = ' ' || c = '\t' || c = '\n' || c = '\r'

/-- Skip JSON whitespace. -/
def skipWs (cs : List Char) : List Char := cs.dropWhile isJsonWs

/-- JSON string body (after the opening quote), with the standard escapes. -/
def jsonStrAux : List Char → List Char → Except String (String × List Char)
  | _, [] => .error "Unterminated string in JSON"
  | acc, c :: rest =>
    if c = '"' then .ok (String.mk acc.reverse, rest)
    else if c = '\\' then
      match rest with
      | [] => .error "Unterminated string in JSON"
      | e :: rest2 =>
        if e = '"' then jsonStrAux ('"' :: acc) rest2
        else if e = '\\' then jsonStrAux ('\\' :: acc) rest2
        else if e = '/' then jsonStrAux ('/' :: acc) rest2
        else if e = 'n' then jsonStrAux ('\n' :: acc) rest2
        else if e = 't' then jsonStrAux ('\t' :: acc) rest2
        else if e = 'r' then jsonStrAux ('\r' :: acc) rest2
        else if e = 'b' then jsonStrAux ('\x08' :: acc) rest2
        else if e = 'f' then jsonStrAux ('\x0c' :: acc) rest2
        else if e = 'u' then
          match rest2 with
          | a :: b :: c2 :: d :: rest3 =>
            match hexDigit? a, hexDigit? b, hexDigit? c2, hexDigit? d with
            | some x, some y, some z, some w =>
              jsonStrAux (Char.ofNat (((x * 16 + y) * 16 + z) * 16 + w) :: acc) rest3
            | _, _, _, _ => .error "Bad Unicode escape in JSON string"
          | _ => .error "Bad Unicode escape in JSON string"
        else .error "Bad escaped character in JSON string"
    else jsonStrAux (c :: acc) rest

/-- JSON number: optional minus and a decimal digit run.  Numeric literals are
modelled as integers; fraction/exponent forms are outside the model (no claim
exercises them). -/
def jsonNum (cs : List Char) : Except String (Json × List Char) :=
  let (sign, cs2) : Int × List Char :=
    match cs with
    | '-' :: r => (-1, r)
    | _ => (1, cs)
  let ds := cs2.takeWhile Char.isDigit
  if ds = [] then .error "Bad number in JSON"
  else
    let rest := cs2.drop ds.length
    match rest with
    | '.' :: _ => .error "Fractional JSON numbers are not modelled"
    | 'e' :: _ => .error "Exponential JSON numbers are not modelled"
    | 'E' :: _ => .error "Exponential JSON numbers are not modelled"
    | _ => .ok (Json.num (sign * (digitsToNat ds : Int)), rest)

mutual

/-- One JSON value (fuel-indexed recursive-descent `JSON.parse`). -/
def jsonVal : Nat → List Char → Except String (Json × List Char)
  | 0, _ => .error "JSON input too deeply nested"
  | fuel + 1, cs0 =>
    match skipWs cs0 with
    | [] => .error "Unexpected end of JSON input"
    | c :: r =>
      if c = '"' then
        match jsonStrAux [] r with
        | .ok (s, r2) => .ok (Json.str s, r2)
        | .error e => .error e
      else if c = braceOpen then jsonObjRest fuel (skipWs r) [] true
      else if c = '[' then jsonArrRest fuel (skipWs r) [] true
      else if c = '-' || c.isDigit then jsonNum (c :: r)
      else
        match c :: r with
        | 'n' :: 'u' :: 'l' :: 'l' :: r2 => .ok (Json.null, r2)
        | 't' :: 'r' :: 'u' :: 'e' :: r2 => .ok (Json.bool true, r2)
        | 'f' :: 'a' :: 'l' :: 's' :: 'e' :: r2 => .ok (Json.bool false, r2)
        | _ => .error "Unexpected token in JSON"

/-- Members of a JSON object after the opening brace (duplicate keys follow
the last-wins-in-place JavaScript semantics via `objSet`). -/
def jsonObjRest : Nat → List Char → List (QKey × Json) → Bool → Except String (Json × List Char)
  | 0, _, _, _ => .error "JSON input too deeply nested"
  | fuel + 1, cs, acc, first =>
    match cs with
    | [] => .error "Unexpected end of JSON input"
    | c :: r =>
      if c = braceClose then .ok (Json.obj acc, r)
      else
        match (if first then .ok (c :: r)
               else if c = ',' then .ok (skipWs r)
               else .error "Expected comma or closing brace in JSON object" :
               Except String (List Char)) with
        | .error e => .error e
        | .ok cs2 =>
          match cs2 with
          | '"' :: r2 =>
            match jsonStrAux [] r2 with
            | .error e => .error e
            | .ok (k, r3) =>
              match skipWs r3 with
              | ':' :: r4 =>
                match jsonVal fuel r4 with
                | .error e => .error e
                | .ok (v, r5) => jsonObjRest fuel (skipWs r5) (objSet acc (QKey.str k) v) false
              | _ => .error "Expected colon in JSON object"
          | _ => .error "Expected string key in JSON object"

/-- Elements of a JSON array after the opening bracket. -/
def jsonArrRest : Nat → List Char → List Json → Bool → Except String (Json × List Char)
  | 0, _, _, _ => .error "JSON input too deeply nested"
  | fuel + 1, cs, acc, first =>
    match cs with
    | [] => .error "Unexpected end of JSON input"
    | c :: r =>
      if c = ']' then .ok (Json.arr acc.reverse, r)
      else
        match (if first then .ok (c :: r)
               else if c = ',' then .ok (skipWs r)
               else .error "Expected comma or closing bracket in JSON array" :
               Except String (List Char)) with
        | .error e => .error e
        | .ok cs2 =>
          match jsonVal fuel cs2 with
          | .error e => .error e
          | .ok (v, r2) => jsonArrRest fuel (skipWs r2) (v :: acc) false

end

/-- `JSON.parse` over the model.  The fuel bound exceeds any possible number
of recursive-descent steps for the given input length. -/
def jsonParse (s : String) : Except String Json :=
  match jsonVal (2 * s.length + 2) s.toList with
  | .error e => .error e
  | .ok (j, rest) =>
    if (skipWs rest).isEmpty then .ok j
    else .error "Unexpected non-whitespace character after JSON"

/-- `value !== null && typeof value === 'object'`.  (A resolved model handle
is a class, whose `typeof` is `'function'`, and in any case never occurs in a
freshly parsed tree.) -/
def isObjLike : Json → Bool
  | .obj _ => true
  | .arr _ => true
  | _ => false

/-- JavaScript property-key coercion of a scalar, used by the `db[value]`
lookup in the `model` branch.  The object-like cases are unreachable there. -/
def scalarPropString : Json → String
  | .null => "null"
  | .bool true => "true"
  | .bool false => "false"
  | .num n => toString n
  | .str s => s
  | .arr _ => ""
  | .obj _ => ""
  | .entity _ => ""

/-- Is this the JSON `null`? -/
def Json.isNull : Json → Bool
  | .null => true
  | _ => false

mutual

/-- The operator-rewrite pass `iterativeReplace` as a pure transform: object
keys matching the operator table are renamed to the operator symbol; non-null
object values are recursed into; a scalar-valued `model` key resolving in the
`db` collaborator is replaced by the entity handle; other scalar entries are
left unchanged. -/
def iterativeReplace (db : String → Bool) : Json → Json
  | Json.obj entries => Json.obj (replaceEntries db entries)
  | Json.arr elems => Json.arr (replaceElems db elems)
  | j => j

/-- One `Object.keys(json).forEach` sweep over an object's entries. -/
def replaceEntries (db : String → Bool) : List (QKey × Json) → List (QKey × Json)
  | [] => []
  | (key, v) :: rest =>
    (if isObjLike v then
      match opOfKey key with
      | some op => (QKey.op op, iterativeReplace db v)
      | none => (key, iterativeReplace db v)
    else if key = QKey.str "model" ∧ db (scalarPropString v) = true then
      (key, Json.entity (scalarPropString v))
    else
      match opOfKey key with
      | some op => (QKey.op op, v)
      | none => (key, v)) :: replaceEntries db rest

/-- The sweep over an array: indices never match an operator name, so each
object-like element is recursed into and scalars are untouched. -/
def replaceElems (db : String → Bool) : List Json → List Json
  | [] => []
  | j :: rest => iterativeReplace db j :: replaceElems db rest

end

/-- Own enumerable entries contributed by `...value` object spread. -/
def spreadEntries : Json → List (QKey × Json)
  | .obj e => e
  | .arr l => l.enum.map (fun p => (QKey.str (toString p.1), p.2))
  | .str s => s.toList.enum.map (fun p => (QKey.str (toString p.1), Json.str (String.mk [p.2])))
  | _ => []

/-- `{...a, ...b}`: entries of `a` overridden by, then extended with, the
entries of `b`. -/
def spreadMerge (a b : List (QKey × Json)) : List (QKey × Json) :=
  b.foldl (fun acc kv => objSet acc kv.1 kv.2) a

/-- `unescapeEscapedQuery`: stringify and `unescape` the raw parameter. -/
def unescapeEscapedQuery (query : ParamValue) : String :=
  jsUnescape query.jsToString

/-- `parseQueryFields`: decode, `JSON.parse`, then run the rewrite pass.
`Object.keys(null)` throws, hence the explicit null guard. -/
def parseQueryFields (db : String → Bool) (query : ParamValue) : Except String Json :=
  match jsonParse (unescapeEscapedQuery query) with
  | .error e => .error e
  | .ok json =>
    if json.isNull then .error "Cannot convert undefined or null to object"
    else .ok (iterativeReplace db json)

/-- `parseIncludeFields`: identical body to `parseQueryFields`. -/
def parseIncludeFields (db : String → Bool) (query : ParamValue) : Except String Json :=
  match jsonParse (unescapeEscapedQuery query) with
  | .error e => .error e
  | .ok json =>
    if json.isNull then .error "Cannot convert undefined or null to object"
    else .ok (iterativeReplace db json)

/-- State threaded through the parameter loop: the descriptor under
construction and the local `offset` / `limit` variables. -/
abbrev LoopSt := Descriptor × Option Int × Option Int

/-- One iteration of the `for (const key in req.query)` switch. -/
def processParam (db : String → Bool) (st : LoopSt) (kv : String × ParamValue) :
    Except String LoopSt :=
  let (d, offv, limv) := st
  let (key, value) := kv
  if key = "fields" then
    match value with
    | .str s =>
      let fields := jsSplit ',' s
      if fields.length > 0 then .ok ({ d with attributes := some fields }, offv, limv)
      else .ok (d, offv, limv)
    | .arr _ => .error "req.query.fields.split is not a function"
  else if key = "limit" then
    let n := mathMin (mathMax (parseIntJs value.jsToString) 1) pageSizeLimit
    .ok ({ d with limit := n }, offv, n)
  else if key = "offset" then
    .ok (d, mathMax (parseIntJs value.jsToString) 0, limv)
  else if key = "sort_by" then
    .ok ({ d with order := some (parseFields value) }, offv, limv)
  else if key = "group_by" then
    .ok ({ d with group := some (parseFields value) }, offv, limv)
  else if key = "query" then
    match parseQueryFields db value with
    | .error e => .error e
    | .ok parsed => .ok ({ d with «where» := spreadMerge d.«where» (spreadEntries parsed) }, offv, limv)
  else if key = "include" then
    match parseIncludeFields db value with
    | .error e => .error e
    | .ok parsed => .ok ({ d with «include» := some parsed }, offv, limv)
  else
    match value with
    | .str s => .ok ({ d with «where» := objSet d.«where» (QKey.str key) (parseQueryParam s) }, offv, limv)
    | .arr _ => .error "req.query[key].split is not a function"

/-- Sequential processing of the parameter mapping; the first thrown exception
aborts the call. -/
def processAll (db : String → Bool) : List (String × ParamValue) → LoopSt → Except String LoopSt
  | [], st => .ok st
  | kv :: rest, st =>
    match processParam db st kv with
    | .error e => .error e
    | .ok st2 => processAll db rest st2

/-- The translator `parse`: fold the switch over the parameters, then set the
final `offset = offset * limit`, resolving or rejecting the promise. -/
def parse (db : String → Bool) (params : List (String × ParamValue)) :
    Except String Descriptor :=
  match processAll db params ({}, some 0, some pageSizeLimit) with
  | .error e => .error e
  | .ok (d, offv, limv) => .ok { d with offset := jsMul offv limv }

/-! ## Shared fixtures and helper lemmas -/

/-- A collaborator registering no model names. -/
def dbEmpty : String → Bool := fun _ => false

/-- A collaborator resolving exactly the model name `Role`. -/
def dbRole : String → Bool := fun s => s == "Role"

/-- The reserved parameter names of the dispatch switch. -/
def reservedKeys : List String :=
  ["fields", "limit", "offset", "sort_by", "group_by", "query", "include"]

/-- The spec's operator-rewrite example input:
`query=\x7b"or":[\x7b"and":[\x7b"firstName":"A"\x7d,\x7b"id":1\x7d]\x7d]\x7d`. -/
def exC1 : Json :=
  Json.obj [(QKey.str "or", Json.arr [Json.obj [(QKey.str "and",
    Json.arr [Json.obj [(QKey.str "firstName", Json.str "A")],
      Json.obj [(QKey.str "id", Json.num 1)]])]])]

/-- The expected rewrite of `exC1`: every `or`/`and` key renamed to its
operator symbol, the leaf pairs untouched. -/
def exC1rewritten : Json :=
  Json.obj [(QKey.op OpSym.or, Json.arr [Json.obj [(QKey.op OpSym.and,
    Json.arr [Json.obj [(QKey.str "firstName", Json.str "A")],
      Json.obj [(QKey.str "id", Json.num 1)]])]])]

/-- The spec's include-resolution example input
`\x7b"model":"Role","where":\x7b"name":"admin"\x7d\x7d`. -/
def incRoleStr : String :=
  "\x7b\"model\":\"Role\",\"where\":\x7b\"name\":\"admin\"\x7d\x7d"

example : jsSplit ',' "a,b" = ["a", "b"] := rfl
example : jsSplit ',' "" = [""] := rfl
example : parseQueryParam "like:Reza%" = Json.obj [(QKey.op OpSym.like, Json.str "Reza%")] := rfl
example : parseQueryParam "in:1,2,3" =
    Json.obj [(QKey.op OpSym.«in», Json.arr [Json.str "1", Json.str "2", Json.str "3"])] := rfl
example : parseQueryParam "active" = Json.str "active" := rfl
example : parseQueryParam "gt:" = Json.str "gt:" := rfl
example : parseQueryParam "foo:bar" = Json.obj [(QKey.str "undefined", Json.str "bar")] := rfl
example : parseIntJs "500" = some 500 := rfl
example : parseIntJs "-3" = some (-3) := rfl
example : parseIntJs "abc" = none := rfl
example : parseIntJs "0x10" = some 16 := rfl

theorem jsSplitChar_ne_nil (sep : Char) (l : List Char) : jsSplitChar sep l ≠ [] := by
  induction l with
  | nil => simp [jsSplitChar]
  | cons c rest ih =>
    rw [jsSplitChar]
    split
    · simp
    · cases h : jsSplitChar sep rest with
      | nil => exact absurd h ih
      | cons h2 t => simp

theorem jsSplitChar_not_mem {sep : Char} {l : List Char} (h : sep ∉ l) :
    jsSplitChar sep l = [l] := by
  induction l with
  | nil => rfl
  | cons c rest ih =>
    have hc : ¬ c = sep := by rintro rfl; exact h (List.mem_cons_self _ _)
    rw [jsSplitChar, if_neg hc, ih (fun hm => h (List.mem_cons_of_mem _ hm))]

theorem jsSplitChar_mem_length {sep : Char} {l : List Char} (h : sep ∈ l) :
    1 < (jsSplitChar sep l).length := by
  induction l with
  | nil => cases h
  | cons c rest ih =>
    rw [jsSplitChar]
    by_cases hc : c = sep
    · rw [if_pos hc]
      have hne := jsSplitChar_ne_nil sep rest
      have hlen : 0 < (jsSplitChar sep rest).length := List.length_pos.mpr hne
      simp only [List.length_cons]
      omega
    · rw [if_neg hc]
      have hmem : sep ∈ rest := by
        cases List.mem_cons.mp h with
        | inl h1 => exact absurd h1.symm hc
        | inr h2 => exact h2
      have hlen := ih hmem
      cases hsp : jsSplitChar sep rest with
      | nil => exact absurd hsp (jsSplitChar_ne_nil sep rest)
      | cons h2 t =>
        rw [hsp] at hlen
        simp only [List.length_cons] at hlen ⊢
        omega

theorem splitColonAux_not_mem {l : List Char} (h : ':' ∉ l) : splitColonAux l = none := by
  induction l with
  | nil => rfl
  | cons c rest ih =>
    have hc : ¬ c = ':' := by rintro rfl; exact h (List.mem_cons_self _ _)
    have ih2 := ih (fun hm => h (List.mem_cons_of_mem _ hm))
    simp [splitColonAux, hc, ih2]

theorem splitColonAux_append {a : List Char} (h : ':' ∉ a) (c : Char) (r : List Char) :
    splitColonAux (a ++ ':' :: c :: r) = some (a, c :: r) := by
  induction a with
  | nil => rfl
  | cons x xs ih =>
    have hx : ¬ x = ':' := by rintro rfl; exact h (List.mem_cons_self _ _)
    have ih2 := ih (fun hm => h (List.mem_cons_of_mem _ hm))
    simp [splitColonAux, hx, ih2]

theorem splitColonAux_trailing {a : List Char} (h : ':' ∉ a) :
    splitColonAux (a ++ [':']) = none := by
  induction a with
  | nil => rfl
  | cons x xs ih =>
    have hx : ¬ x = ':' := by rintro rfl; exact h (List.mem_cons_self _ _)
    have ih2 := ih (fun hm => h (List.mem_cons_of_mem _ hm))
    simp [splitColonAux, hx, ih2]

theorem splitFirstColon_of_append {name rest : String} (hnc : ':' ∉ name.toList)
    (hne : rest ≠ "") : splitFirstColon (name ++ ":" ++ rest) = some (name, rest) := by
  obtain ⟨c, cs, hcs⟩ : ∃ c cs, rest.toList = c :: cs := by
    cases rest with
    | mk d =>
      cases d with
      | nil => exact absurd rfl hne
      | cons c cs => exact ⟨c, cs, rfl⟩
  have hdata : (name ++ ":" ++ rest).toList = name.toList ++ ':' :: rest.toList := by
    have h1 : (name ++ ":" ++ rest).toList = (name.toList ++ [':']) ++ rest.toList := rfl
    rw [h1, List.append_assoc]
    rfl
  unfold splitFirstColon
  rw [hdata, hcs, splitColonAux_append hnc]
  rw [← hcs]
  rfl

theorem splitFirstColon_trailing {name : String} (hnc : ':' ∉ name.toList) :
    splitFirstColon (name ++ ":") = none := by
  have hdata : (name ++ ":").toList = name.toList ++ [':'] := rfl
  unfold splitFirstColon
  rw [hdata, splitColonAux_trailing hnc]

theorem splitFirstColon_not_mem {q : String} (h : ':' ∉ q.toList) :
    splitFirstColon q = none := by
  unfold splitFirstColon
  rw [splitColonAux_not_mem h]

theorem lookupQ_objSet (l : List (QKey × Json)) (k k' : QKey) (v : Json) :
    lookupQ (objSet l k v) k' = if k = k' then some v else lookupQ l k' := by
  induction l with
  | nil => rfl
  | cons hd rest ih =>
    obtain ⟨k0, v0⟩ := hd
    by_cases h0 : k0 = k
    · subst h0
      by_cases h1 : k0 = k'
      · subst h1; simp [objSet, lookupQ]
      · simp [objSet, lookupQ, h1]
    · by_cases h1 : k0 = k'
      · subst h1
        have : ¬ k = k0 := fun hh => h0 hh.symm
        simp [objSet, lookupQ, h0, this]
      · simp [objSet, lookupQ, h0, h1, ih]

theorem lookupQ_not_mem {l : List (QKey × Json)} {k : QKey} (h : k ∉ l.map Prod.fst) :
    lookupQ l k = none := by
  induction l with
  | nil => rfl
  | cons hd tl ih =>
    obtain ⟨k0, v0⟩ := hd
    have hk0 : ¬ k0 = k := by rintro rfl; exact h (by simp)
    simp only [lookupQ, if_neg hk0]
    exact ih (fun hm => h (by simp [List.mem_map] at hm ⊢; exact Or.inr hm))

theorem lookupQ_spreadMerge (b : List (QKey × Json)) (a : List (QKey × Json))
    (hnd : (b.map Prod.fst).Nodup) (k : QKey) :
    lookupQ (spreadMerge a b) k =
      match lookupQ b k with
      | some v => some v
      | none => lookupQ a k := by
  induction b generalizing a with
  | nil => simp [spreadMerge, lookupQ]
  | cons hd tl ih =>
    obtain ⟨k0, v0⟩ := hd
    rw [List.map_cons] at hnd
    have hpair := List.nodup_cons.mp hnd
    have hstep : spreadMerge a ((k0, v0) :: tl) = spreadMerge (objSet a k0 v0) tl := rfl
    rw [hstep, ih _ hpair.2]
    by_cases hk : k0 = k
    · subst hk
      have htl : lookupQ tl k0 = none := lookupQ_not_mem hpair.1
      rw [htl]
      simp [lookupQ, lookupQ_objSet]
    · have hhd : lookupQ ((k0, v0) :: tl) k = lookupQ tl k := by
        simp [lookupQ, hk]
      rw [hhd, lookupQ_objSet]
      cases lookupQ tl k with
      | some v => rfl
      | none => simp [hk]

theorem processAll_error_of_mem {db : String → Bool} {l : List (String × ParamValue)}
    {kv : String × ParamValue} (hmem : kv ∈ l)
    (hfail : ∀ st : LoopSt, ∃ e, processParam db st kv = Except.error e) :
    ∀ st : LoopSt, ∃ e, processAll db l st = Except.error e := by
  induction l with
  | nil => cases hmem
  | cons head rest ih =>
    intro st
    cases List.mem_cons.mp hmem with
    | inl heq =>
      obtain ⟨e, he⟩ := hfail st
      exact ⟨e, by rw [processAll, ← heq, he]⟩
    | inr hmem2 =>
      cases hp : processParam db st head with
      | error e => exact ⟨e, by rw [processAll, hp]⟩
      | ok st2 =>
        obtain ⟨e, he⟩ := ih hmem2 st2
        exact ⟨e, by rw [processAll, hp]; exact he⟩

theorem parse_fails_of_mem {db : String → Bool} {params : List (String × ParamValue)}
    {kv : String × ParamValue} (hmem : kv ∈ params)
    (hfail : ∀ st : LoopSt, ∃ e, processParam db st kv = Except.error e) :
    (parse db params).isOk = false := by
  obtain ⟨e, he⟩ := processAll_error_of_mem hmem hfail ({}, some 0, some pageSizeLimit)
  unfold parse
  rw [he]
  rfl

/-! ## Claim theorems -/

/-- C1: in the operator-rewrite pass, every mapping key matching the
operator-symbol table is renamed to its operator symbol unconditionally;
when the value is a non-null object the renamed (or unmatched) entry is
recursed into; keys with no operator match and non-`model` scalar values are
left unchanged; and on the nested `or`/`and` example every operator key is
rewritten recursively with the `firstName`/`id` leaves untouched. -/
theorem C1_operator_rewrite (db : String → Bool) (k : QKey) (v : Json)
    (rest : List (QKey × Json)) :
    (∀ op, opOfKey k = some op →
      replaceEntries db ((k, v) :: rest) =
        (QKey.op op, if isObjLike v then iterativeReplace db v else v)
          :: replaceEntries db rest)
    ∧ (opOfKey k = none → isObjLike v = true →
      replaceEntries db ((k, v) :: rest) = (k, iterativeReplace db v) :: replaceEntries db rest)
    ∧ (opOfKey k = none → k ≠ QKey.str "model" → isObjLike v = false →
      replaceEntries db ((k, v) :: rest) = (k, v) :: replaceEntries db rest)
    ∧ iterativeReplace dbEmpty exC1 = exC1rewritten := by
  refine ⟨?_, ?_, ?_, rfl⟩
  · intro op hop
    have hkm : ¬ (k = QKey.str "model" ∧ db (scalarPropString v) = true) := by
      rintro ⟨rfl, -⟩
      simp [opOfKey, operators] at hop
    rw [replaceEntries]
    by_cases hobj : isObjLike v = true
    · simp [hobj, hop]
    · simp only [Bool.not_eq_true] at hobj
      simp [hobj, hop, hkm]
  · intro hop hobj
    rw [replaceEntries]
    simp [hobj, hop]
  · intro hop hkm hobj
    have hkm2 : ¬ (k = QKey.str "model" ∧ db (scalarPropString v) = true) := by
      rintro ⟨rfl, -⟩
      exact hkm rfl
    rw [replaceEntries]
    simp [hobj, hop, hkm2]

/-- C1 witness: the theorem applied to the entry `("or", [])`. -/
theorem C1_witness :
    replaceEntries dbEmpty [(QKey.str "or", Json.arr [])] = [(QKey.op OpSym.or, Json.arr [])] := by
  have h := (C1_operator_rewrite dbEmpty (QKey.str "or") (Json.arr []) []).1 OpSym.or rfl
  exact h

/-- C3: a non-reserved parameter value `operatorName:value` with a known
operator is split on the first colon only (the remainder may contain further
colons); the `where` entry is `{op: [v1, v2, ...]}` when the remainder
contains a comma and `{op: remainder}` otherwise, values staying strings; a
value without a colon is assigned literally.  The spec's three examples are
verified end to end. -/
theorem C3_filter_grammar (name rest : String) (op : OpSym)
    (hop : operators name = some op) (hnc : ':' ∉ name.toList) (hne : rest ≠ "") :
    (',' ∉ rest.toList → parseQueryParam (name ++ ":" ++ rest) =
      Json.obj [(QKey.op op, Json.str rest)])
    ∧ (',' ∈ rest.toList → parseQueryParam (name ++ ":" ++ rest) =
      Json.obj [(QKey.op op, Json.arr ((jsSplit ',' rest).map Json.str))])
    ∧ (∀ q : String, ':' ∉ q.toList → parseQueryParam q = Json.str q)
    ∧ parse dbEmpty [("firstName", ParamValue.str "like:Reza%")] =
      .ok { «where» := [(QKey.str "firstName",
        Json.obj [(QKey.op OpSym.like, Json.str "Reza%")])] }
    ∧ parse dbEmpty [("id", ParamValue.str "in:1,2,3")] =
      .ok { «where» := [(QKey.str "id", Json.obj [(QKey.op OpSym.«in»,
        Json.arr [Json.str "1", Json.str "2", Json.str "3"])])] }
    ∧ parse dbEmpty [("status", ParamValue.str "active")] =
      .ok { «where» := [(QKey.str "status", Json.str "active")] } := by
  have hsplit := splitFirstColon_of_append hnc hne
  refine ⟨?_, ?_, ?_, rfl, rfl, rfl⟩
  · intro hcm
    have h1 : jsSplit ',' rest = [rest] := by
      unfold jsSplit
      rw [jsSplitChar_not_mem hcm]
      rfl
    simp [parseQueryParam, hsplit, hop, h1]
  · intro hcm
    have h2 : 1 < (jsSplit ',' rest).length := by
      unfold jsSplit
      rw [List.length_map]
      exact jsSplitChar_mem_length hcm
    simp [parseQueryParam, hsplit, hop, h2]
  · intro q hq
    have h3 := splitFirstColon_not_mem hq
    simp [parseQueryParam, h3]

/-- C3 witness: the theorem applied at `firstName=like:Reza%`. -/
theorem C3_witness :
    parseQueryParam ("like" ++ ":" ++ "Reza%") =
      Json.obj [(QKey.op OpSym.like, Json.str "Reza%")] := by
  exact (C3_filter_grammar "like" "Reza%" OpSym.like rfl (by decide) (by decide)).1 (by decide)

/-- C4 counterexample: the claim says a `name:value` parameter with an
unknown operator name is assigned to `where[field]` as the literal string;
in fact `status=foo:bar` produces the mapping `\x7b"undefined": "bar"\x7d`
(the failed table lookup is used as a property key), not the literal. -/
theorem C4_counterexample :
    parse dbEmpty [("status", ParamValue.str "foo:bar")] =
      .ok { «where» := [(QKey.str "status",
        Json.obj [(QKey.str "undefined", Json.str "bar")])] }
    ∧ parse dbEmpty [("status", ParamValue.str "foo:bar")] ≠
      .ok { «where» := [(QKey.str "status", Json.str "foo:bar")] } := by
  refine ⟨rfl, ?_⟩
  have heq : parse dbEmpty [("status", ParamValue.str "foo:bar")] =
      .ok { «where» := [(QKey.str "status",
        Json.obj [(QKey.str "undefined", Json.str "bar")])] } := rfl
  rw [heq]
  intro h
  have h2 := Except.ok.inj h
  have h3 := congrArg Descriptor.«where» h2
  simp at h3

/-- C4 (amended): a `name:value` parameter whose `name` is not a known
operator (and whose remainder after the first colon is non-empty) is *not*
passed through literally: the failed operator lookup becomes the string
property key `undefined`, so `where[field]` is the single-entry mapping
`\x7b"undefined": remainder-or-comma-list\x7d`; only values with no
colon-followed-by-remainder fall back to the literal string. -/
theorem C4_unknown_operator (name rest : String)
    (hop : operators name = none) (hnc : ':' ∉ name.toList) (hne : rest ≠ "") :
    parseQueryParam (name ++ ":" ++ rest) =
      Json.obj [(QKey.str "undefined",
        if 1 < (jsSplit ',' rest).length then Json.arr ((jsSplit ',' rest).map Json.str)
        else Json.str ((jsSplit ',' rest).headD ""))] := by
  have hsplit := splitFirstColon_of_append hnc hne
  by_cases hlen : 1 < (jsSplit ',' rest).length
  · simp [parseQueryParam, hsplit, hop, hlen]
  · simp [parseQueryParam, hsplit, hop, hlen]

/-- C4 amended-claim witness: the theorem applied at `foo:bar`. -/
theorem C4_witness :
    parseQueryParam ("foo" ++ ":" ++ "bar") =
      Json.obj [(QKey.str "undefined", Json.str "bar")] := by
  have h := C4_unknown_operator "foo" "bar" rfl (by decide) (by decide)
  exact h

/-- C7: in the rewrite pass, an entry whose key is literally `model` and whose
scalar value names an entity registered with the collaborator has its value
replaced by the resolved entity handle; sibling scalar entries whose keys
match no operator are left as literal pairs; and the spec's include example
resolves `model` to the `Role` handle while keeping `where` literal. -/
theorem C7_model_resolution (db : String → Bool) (v : Json) (rest : List (QKey × Json))
    (hscalar : isObjLike v = false) (hdb : db (scalarPropString v) = true) :
    replaceEntries db ((QKey.str "model", v) :: rest) =
      (QKey.str "model", Json.entity (scalarPropString v)) :: replaceEntries db rest
    ∧ (∀ (k : QKey) (w : Json), opOfKey k = none → isObjLike w = false →
        k ≠ QKey.str "model" →
        replaceEntries db ((k, w) :: rest) = (k, w) :: replaceEntries db rest)
    ∧ parse dbRole [("include", ParamValue.str incRoleStr)] =
      .ok { «include» := some (Json.obj [(QKey.str "model", Json.entity "Role"),
        (QKey.str "where", Json.obj [(QKey.str "name", Json.str "admin")])]) } := by
  refine ⟨?_, ?_, rfl⟩
  · rw [replaceEntries]
    simp [hscalar, hdb]
  · intro k w hop hobj hkm
    have hkm2 : ¬ (k = QKey.str "model" ∧ db (scalarPropString w) = true) := by
      rintro ⟨rfl, -⟩
      exact hkm rfl
    rw [replaceEntries]
    simp [hobj, hop, hkm2]

/-- C7 witness: the theorem applied to the entry `("model", "Role")` under the
collaborator resolving `Role`. -/
theorem C7_witness :
    replaceEntries dbRole [(QKey.str "model", Json.str "Role")] =
      [(QKey.str "model", Json.entity "Role")] := by
  exact (C7_model_resolution dbRole (Json.str "Role") [] rfl rfl).1

/-- C10: a filter value that is a known operator name followed by a trailing
colon and nothing else does not match the first-colon split (which needs a
non-empty remainder); the whole string, colon included, is assigned as the
literal value, shown end to end for `age=gt:`. -/
theorem C10_trailing_colon (name : String) (op : OpSym)
    (_hop : operators name = some op) (hnc : ':' ∉ name.toList) :
    parseQueryParam (name ++ ":") = Json.str (name ++ ":")
    ∧ parse dbEmpty [("age", ParamValue.str "gt:")] =
      .ok { «where» := [(QKey.str "age", Json.str "gt:")] } := by
  refine ⟨?_, rfl⟩
  have h := splitFirstColon_trailing hnc
  simp [parseQueryParam, h]

/-- C10 witness: the theorem applied at the operator name `gt`. -/
theorem C10_witness :
    parseQueryParam ("gt" ++ ":") = Json.str ("gt" ++ ":") := by
  exact (C10_trailing_colon "gt" OpSym.gt rfl (by decide)).1

/-- C2: pagination arithmetic.  With `limit` parsing to `n` and `offset`
parsing to page index `p`: the descriptor's `limit` is `n` clamped to the
nearest bound of `[1, 200]`; for `p ≥ 0` the descriptor's `offset` is
`p × effectivePageSize`; a negative `p` is clamped to `0`; with either
parameter absent the descriptor carries the defaults (`limit = 200`,
`offset = 0`, and the default page size `200` is the multiplier). -/
theorem C2_pagination (db : String → Bool) (ls os : String) (n p : Int)
    (hl : parseIntJs ls = some n) (ho : parseIntJs os = some p) :
    (0 ≤ p → parse db [("limit", ParamValue.str ls), ("offset", ParamValue.str os)] =
      .ok { «where» := [], limit := some (min (max n 1) 200),
            offset := some (p * min (max n 1) 200) })
    ∧ (p < 0 → parse db [("limit", ParamValue.str ls), ("offset", ParamValue.str os)] =
      .ok { «where» := [], limit := some (min (max n 1) 200), offset := some 0 })
    ∧ parse db [] = .ok {}
    ∧ parse db [("limit", ParamValue.str ls)] =
      .ok { «where» := [], limit := some (min (max n 1) 200), offset := some 0 }
    ∧ parse db [("offset", ParamValue.str os)] =
      .ok { «where» := [], offset := some (max p 0 * 200) } := by
  refine ⟨?_, ?_, rfl, ?_, ?_⟩
  · intro hp
    have hmax : max p 0 = p := max_eq_left hp
    simp [parse, processAll, processParam, ParamValue.jsToString, hl, ho,
      mathMax, mathMin, jsMul, pageSizeLimit, hmax]
  · intro hp
    have hmax : max p 0 = 0 := max_eq_right (le_of_lt hp)
    simp [parse, processAll, processParam, ParamValue.jsToString, hl, ho,
      mathMax, mathMin, jsMul, pageSizeLimit, hmax]
  · simp [parse, processAll, processParam, ParamValue.jsToString, hl,
      mathMax, mathMin, jsMul, pageSizeLimit]
  · simp [parse, processAll, processParam, ParamValue.jsToString, ho,
      mathMax, mathMin, jsMul, pageSizeLimit]

/-- C2 witness: the theorem applied at `limit=10&offset=3`. -/
theorem C2_witness :
    parse dbEmpty [("limit", ParamValue.str "10"), ("offset", ParamValue.str "3")] =
      .ok { «where» := [], limit := some 10, offset := some 30 } := by
  exact (C2_pagination dbEmpty "10" "3" 10 3 rfl rfl).1 (by decide)

/-- C5: malformed JSON in `query` or `include` (or any throwing sub-step)
fails the whole translation call — no descriptor is produced — and in the
canonical single-parameter case the failure value carries exactly the
original error's message. -/
theorem C5_parse_error_atomic (db : String → Bool) (params : List (String × ParamValue))
    (q m : String) :
    (("query", ParamValue.str q) ∈ params → jsonParse (jsUnescape q) = .error m →
      (parse db params).isOk = false)
    ∧ (("include", ParamValue.str q) ∈ params → jsonParse (jsUnescape q) = .error m →
      (parse db params).isOk = false)
    ∧ (jsonParse (jsUnescape q) = .error m →
      parse db [("query", ParamValue.str q)] = .error m) := by
  refine ⟨?_, ?_, ?_⟩
  · intro hmem hjson
    refine parse_fails_of_mem hmem ?_
    rintro ⟨d, o, lim⟩
    refine ⟨m, ?_⟩
    simp [processParam, parseQueryFields, unescapeEscapedQuery, ParamValue.jsToString, hjson]
  · intro hmem hjson
    refine parse_fails_of_mem hmem ?_
    rintro ⟨d, o, lim⟩
    refine ⟨m, ?_⟩
    simp [processParam, parseIncludeFields, unescapeEscapedQuery, ParamValue.jsToString, hjson]
  · intro hjson
    unfold parse
    have hstep : processAll db [("query", ParamValue.str q)] ({}, some 0, some pageSizeLimit) =
        .error m := by
      simp [processAll, processParam, parseQueryFields, unescapeEscapedQuery,
        ParamValue.jsToString, hjson]
    rw [hstep]

/-- C5 witness: the theorem applied at `query=\x7bnot valid json`. -/
theorem C5_witness :
    parse dbEmpty [("query", ParamValue.str "\x7bnot valid json")] =
      .error "Expected string key in JSON object" := by
  exact (C5_parse_error_atomic dbEmpty [("query", ParamValue.str "\x7bnot valid json")]
    "\x7bnot valid json" "Expected string key in JSON object").2.2 rfl

/-- C6: the `query` path decodes and JSON-parses the value, runs the rewrite
pass, and merges the result into `where` — the loop state is otherwise
untouched (same `attributes`, `order`, `group`, `include`, `limit`, `offset`,
and local offset/limit variables, as the single record update shows) — and
the spread merge lets query keys overwrite same-key `where` entries while
preserving the others. -/
theorem C6_query_merge (db : String → Bool) (d : Descriptor) (offv limv : Option Int)
    (q : String) (j : Json) (hj : jsonParse (jsUnescape q) = .ok j)
    (hnn : j.isNull = false) :
    processParam db (d, offv, limv) ("query", ParamValue.str q) =
      .ok ({ d with «where» := spreadMerge d.«where» (spreadEntries (iterativeReplace db j)) },
        offv, limv)
    ∧ (∀ (a b : List (QKey × Json)), (b.map Prod.fst).Nodup → ∀ k : QKey,
        lookupQ (spreadMerge a b) k =
          match lookupQ b k with
          | some v => some v
          | none => lookupQ a k) := by
  refine ⟨?_, ?_⟩
  · simp [processParam, parseQueryFields, unescapeEscapedQuery, ParamValue.jsToString, hj, hnn]
  · intro a b hnd k
    exact lookupQ_spreadMerge b a hnd k

/-- C6 witness: the theorem applied at `query=\x7b"a":1\x7d` over a fresh
loop state. -/
theorem C6_witness :
    processParam dbEmpty ({}, some 0, some 200)
        ("query", ParamValue.str "\x7b\"a\":1\x7d") =
      .ok ({ «where» := [(QKey.str "a", Json.num 1)] }, some 0, some 200) := by
  exact (C6_query_merge dbEmpty {} (some 0) (some 200) "\x7b\"a\":1\x7d"
    (Json.obj [(QKey.str "a", Json.num 1)]) rfl rfl).1

/-- C8: the translation is a deterministic function of its inputs — two runs
on the same parameter mapping (and the same collaborator) yield the same
result.  (In this pure embedding determinism and non-mutation of the input
hold by construction; the JavaScript source only mutates objects freshly
created inside the call.) -/
theorem C8_deterministic (db : String → Bool) (params : List (String × ParamValue))
    (r1 r2 : Except String Descriptor)
    (h1 : parse db params = r1) (h2 : parse db params = r2) : r1 = r2 :=
  h1 ▸ h2

/-- C8 witness: two runs on `status=active` agree. -/
theorem C8_witness :
    parse dbEmpty [("status", ParamValue.str "active")] =
      parse dbEmpty [("status", ParamValue.str "active")] := by
  exact C8_deterministic dbEmpty [("status", ParamValue.str "active")] _ _ rfl rfl

/-- C9: a `fields` parameter or any non-reserved filter parameter supplied as
a sequence of strings makes the translation call fail (`split` is not a
function on an array, and the throw rejects the whole call), while the
`sort_by` and `group_by` paths process sequence values without failing. -/
theorem C9_array_values (db : String → Bool) (params : List (String × ParamValue))
    (k : String) (l : List String) :
    (("fields", ParamValue.arr l) ∈ params → (parse db params).isOk = false)
    ∧ ((k, ParamValue.arr l) ∈ params → k ∉ reservedKeys →
      (parse db params).isOk = false)
    ∧ (∀ (d : Descriptor) (offv limv : Option Int),
      processParam db (d, offv, limv) ("sort_by", ParamValue.arr l) =
        .ok ({ d with order := some (parseFields (ParamValue.arr l)) }, offv, limv))
    ∧ (∀ (d : Descriptor) (offv limv : Option Int),
      processParam db (d, offv, limv) ("group_by", ParamValue.arr l) =
        .ok ({ d with group := some (parseFields (ParamValue.arr l)) }, offv, limv)) := by
  refine ⟨?_, ?_, fun d offv limv => rfl, fun d offv limv => rfl⟩
  · intro hmem
    refine parse_fails_of_mem hmem ?_
    rintro ⟨d, o, lim⟩
    exact ⟨_, rfl⟩
  · intro hmem hres
    simp only [reservedKeys, List.mem_cons, List.mem_singleton] at hres
    push_neg at hres
    obtain ⟨h1, h2, h3, h4, h5, h6, h7⟩ := hres
    refine parse_fails_of_mem hmem ?_
    rintro ⟨d, o, lim⟩
    refine ⟨"req.query[key].split is not a function", ?_⟩
    simp [processParam, h1, h2, h3, h4, h5, h6, h7]

/-- C9 witness: the theorem applied at `fields=["a","b"]` and at the
non-reserved `tags=["x"]`. -/
theorem C9_witness :
    (parse dbEmpty [("fields", ParamValue.arr ["a", "b"])]).isOk = false
    ∧ (parse dbEmpty [("tags", ParamValue.arr ["x"])]).isOk = false := by
  constructor
  · exact (C9_array_values dbEmpty [("fields", ParamValue.arr ["a", "b"])] "tags"
      ["a", "b"]).1 (by simp)
  · exact (C9_array_values dbEmpty [("tags", ParamValue.arr ["x"])] "tags"
      ["x"]).2.1 (by simp) (by decide)
